import Mathlib

/-!
Verification of the ETL_CHATBOT incremental extraction-and-chunking pipeline.

The definitions below are a shallow embedding of the Python sources:
  scripts/etl.py        (extractors and the word-aware chunker)
  scripts/etl_runner.py (the incremental-sync orchestrator run_etl)
  scripts/vectorstore.py (create_chroma_from_chunks)
External libraries (pdfplumber, pytesseract, cv2, googleapiclient, langchain,
Chroma) are modelled as oracles: structures of values describing every
possible behaviour of the library call, including raising an exception.
A Python function that can raise is embedded as a function into
`Except PyExc _`; a `try/except` block is a `match` on that value.
-/

namespace EtlChatbot

/-- A Python exception, as observed by an `except` clause.  The extractor
distinguishes `UnicodeDecodeError` from every other exception class. -/
inductive PyExc where
  | unicodeDecodeError
  | otherError
deriving DecidableEq, Repr

deriving instance DecidableEq for Except

/-! ## Python string primitives -/

/-- Word splitter for Python `str.split()` (no separator argument): splits on
runs of whitespace and never yields an empty word.  `acc` is the current word
accumulated in reverse. -/
def pyWordsAux : List Char → List Char → List String
  | [], acc => if acc = [] then [] else [String.mk acc.reverse]
  | c :: cs, acc =>
    if c.isWhitespace then
      if acc = [] then pyWordsAux cs []
      else String.mk acc.reverse :: pyWordsAux cs []
    else pyWordsAux cs (c :: acc)

/-- Python `s.split()`. -/
def pyWords (s : String) : List String := pyWordsAux s.data []

/-- Python `s.strip()`: remove leading and trailing whitespace. -/
def pyStrip (s : String) : String :=
  String.mk (((s.data.dropWhile Char.isWhitespace).reverse.dropWhile
      Char.isWhitespace).reverse)

/-- Python `" ".join(words)`. -/
def joinWords : List String → String
  | [] => ""
  | [w] => w
  | w :: x :: xs => w ++ " " ++ joinWords (x :: xs)

/-- Python list slice `l[i:]` for an arbitrary (possibly negative) integer
start index: a negative index counts from the end and is clamped at 0. -/
def pySliceFrom {α : Type} (l : List α) (i : Int) : List α :=
  if 0 ≤ i then l.drop i.toNat else l.drop (l.length - (-i).toNat)

/-- The last `k` elements of a list (all of it when it has fewer than `k`). -/
def pyLastN {α : Type} (l : List α) (k : Nat) : List α := l.drop (l.length - k)

/-! ## Chunker (scripts/etl.py, doc_to_chunks) -/

/-- Chunk metadata.  The chunker (etl.py lines 198-202) fills `source`,
`doc_id` and `chunk_index`; the orchestrator (etl_runner.py lines 99-104)
later adds the keys `file_name`, `mimeType` and `modifiedTime` via
`dict.update`, so those keys are optional here (`none` = key absent;
the stored value itself may be Python `None`, hence the nested `Option`). -/
structure ChunkMeta where
  source : String
  doc_id : String
  chunk_index : Nat
  file_name : Option String := none
  mimeType : Option (Option String) := none
  modifiedTime : Option (Option String) := none
deriving DecidableEq, Repr

/-- A chunk as built by `doc_to_chunks` (etl.py lines 195-203). -/
structure Chunk where
  id : String
  text : String
  metadata : ChunkMeta
deriving DecidableEq, Repr

/-- One chunk record: id is `"{doc_id}_chunk_{cid}"`. -/
def mkChunk (srcPath docId : String) (cid : Nat) (text : String) : Chunk :=
  { id := docId ++ "_chunk_" ++ toString cid
    text := text
    metadata := { source := srcPath, doc_id := docId, chunk_index := cid } }

/-- `sum(len(w) + 1 for w in current_chunk)` (etl.py line 207). -/
def sumLen (l : List String) : Nat := (l.map (fun w => w.length + 1)).sum

/-- The seed of the next chunk after a split (etl.py line 206):
`current_chunk[-overlap//10:] + [word]`.  Note the Python parse: the slice
start index is `(-overlap) // 10` (unary minus binds tighter than floor
division), a floor division of a negative number. -/
def overlapSeed (current : List String) (overlap : Nat) (w : String) :
    List String :=
  pySliceFrom current (Int.fdiv (-(overlap : Int)) 10) ++ [w]

/-- The accumulation loop of `doc_to_chunks` (etl.py lines 189-218),
including the trailing flush of the final partial chunk. -/
def chunkLoop (srcPath docId : String) (chunkSize overlap : Nat) :
    List String → List String → Nat → Nat → List Chunk
  | [], current, _, cid =>
    if current = [] then [] else [mkChunk srcPath docId cid (joinWords current)]
  | w :: ws, current, curLen, cid =>
    if curLen + w.length + 1 ≤ chunkSize then
      chunkLoop srcPath docId chunkSize overlap ws (current ++ [w])
        (curLen + w.length + 1) cid
    else
      mkChunk srcPath docId cid (joinWords current) ::
        chunkLoop srcPath docId chunkSize overlap ws
          (overlapSeed current overlap w) (sumLen (overlapSeed current overlap w))
          (cid + 1)

/-- The chunking part of `doc_to_chunks` (etl.py lines 176-218) applied to the
already-extracted text.  The source first checks `if not text.strip()`, then
normalizes whitespace with `re.sub(r"\s+", " ", text).strip()` and splits with
`.split()`; the resulting word list is exactly `pyWords text`. -/
def chunkText (srcPath docId text : String) (chunkSize overlap : Nat) :
    List Chunk :=
  if pyStrip text = "" then []
  else chunkLoop srcPath docId chunkSize overlap (pyWords text) [] 0 0

/-- The overlap window exactly as the specification words it: the last
`floor(overlap / 10)` words of the just-closed chunk, followed by the word
that triggered the split. -/
def specSeed (current : List String) (overlap : Nat) (w : String) :
    List String :=
  pyLastN current (overlap / 10) ++ [w]

/-! ## Extractor (scripts/etl.py)

Library calls are oracles.  A value of type `Except PyExc α` describes one
call: `Except.error e` means the call raised, `Except.ok a` means it returned
`a`.  Each oracle structure describes the behaviour of every library call made
while extracting one file. -/

/-- Oracle for one pdfplumber page (etl.py lines 31-42). -/
structure PdfPage where
  extractText : Except PyExc (Option String)
  toImage : Except PyExc Unit
  ocr : Except PyExc String
deriving Repr

/-- Oracle for `pdfplumber.open` on one file. -/
structure PdfEnv where
  openPdf : Except PyExc (List PdfPage)

/-- Oracle for the cv2 / pytesseract calls made on one image file
(etl.py lines 79-136). -/
structure ImgEnv where
  imreadOk : Bool
  cvOps : Except PyExc Unit
  imwrite : Except PyExc Bool
  ocrProcessed : Except PyExc String
  ocrOriginal : Except PyExc String
  ocrPsm6 : Except PyExc String

/-- Oracle for every external call made while extracting one file. -/
structure FileEnv where
  pathExists : Bool
  isFile : Bool
  readUtf8 : Except PyExc String
  pdf : PdfEnv
  docxParas : Except PyExc (List String)
  img : ImgEnv

/-- The fixed temp path written by preprocessing (etl.py line 92). -/
def tempOcrPath : String := "temp_ocr.png"

/-- `preprocess_image_for_ocr` (etl.py lines 79-99).  Returns the value the
Python function returns (the temp path, or `None` on unreadable input or any
exception) together with whether the temp file exists on disk afterwards.
`cv2.imwrite` returning `false` means no file was written. -/
def preprocess_image_for_ocr (e : ImgEnv) : Option String × Bool :=
  if e.imreadOk = false then (none, false)
  else
    match e.cvOps with
    | Except.error _ => (none, false)
    | Except.ok _ =>
      match e.imwrite with
      | Except.error _ => (none, false)
      | Except.ok written => (some tempOcrPath, written)

/-- The two OCR fallbacks of `extract_text_from_image` (etl.py lines 116-124):
retry on the original image, then retry with `--psm 6`; each stage runs only
if the text so far has no non-whitespace character, and each call may raise. -/
def imageFallbacks (e : ImgEnv) (t : String) : Except PyExc String :=
  if pyStrip t = "" then
    match e.ocrOriginal with
    | Except.error ex => Except.error ex
    | Except.ok t2 =>
      if pyStrip t2 = "" then
        match e.ocrPsm6 with
        | Except.error ex => Except.error ex
        | Except.ok t3 => Except.ok t3
      else Except.ok t2
  else Except.ok t

/-- Continuation of `extract_text_from_image` after a returning first OCR
call: the temp file has just been removed (etl.py line 114), `t` is its
result, and only the fallback chain remains. -/
def imageResultAfterRemove (e : ImgEnv) (t : String) : String × Bool :=
  match imageFallbacks e t with
  | Except.ok s => (pyStrip s, false)
  | Except.error _ => ("", false)

/-- Continuation when no temp file was used for OCR (`text` starts empty and
the temp-existence flag `temp0` is whatever preprocessing left). -/
def imageResultNoTemp (e : ImgEnv) (temp0 : Bool) : String × Bool :=
  match imageFallbacks e "" with
  | Except.ok s => (pyStrip s, temp0)
  | Except.error _ => ("", temp0)

/-- `extract_text_from_image` (etl.py lines 105-136).  First component: the
returned text (the outer `except` turns any raise into `""`).  Second
component: whether the preprocessing temp file still exists when the function
returns.  `os.remove` runs only on the line after a *returning* first OCR
call (etl.py line 114); an OCR exception jumps straight to the handler. -/
def extract_text_from_image (e : ImgEnv) : String × Bool :=
  match preprocess_image_for_ocr e with
  | (some _, true) =>
    (match e.ocrProcessed with
     | Except.error _ => ("", true)
     | Except.ok t => imageResultAfterRemove e t)
  | (_, temp0) => imageResultNoTemp e temp0

/-- One page of the PDF loop (etl.py lines 31-42), inside the per-page `try`:
the list of texts this page contributes. -/
def pdfPageOcr (pg : PdfPage) : Except PyExc (List String) :=
  match pg.toImage with
  | Except.error e => Except.error e
  | Except.ok _ =>
    match pg.ocr with
    | Except.error e => Except.error e
    | Except.ok t => if pyStrip t = "" then Except.ok [] else Except.ok [t]

/-- Per-page body: native text if `txt and txt.strip()`, else OCR fallback. -/
def pdfPageBody (pg : PdfPage) : Except PyExc (List String) :=
  match pg.extractText with
  | Except.error e => Except.error e
  | Except.ok (some s) => if pyStrip s = "" then pdfPageOcr pg else Except.ok [s]
  | Except.ok none => pdfPageOcr pg

/-- The per-page `try/except` (etl.py lines 41-42): a failing page contributes
nothing and the loop continues. -/
def pdfPageTexts (pg : PdfPage) : List String :=
  match pdfPageBody pg with
  | Except.ok l => l
  | Except.error _ => []

/-- The body of `extract_text_from_pdf` inside its outer `try`. -/
def pdfBody (env : FileEnv) : Except PyExc String :=
  if env.pathExists = false then Except.ok ""
  else
    match env.pdf.openPdf with
    | Except.error e => Except.error e
    | Except.ok pages =>
      Except.ok (String.intercalate "\n"
        (pages.foldl (fun acc pg => acc ++ pdfPageTexts pg) []))

/-- `extract_text_from_pdf` (etl.py lines 21-51): outer `except` yields `""`. -/
def extract_text_from_pdf (env : FileEnv) : Except PyExc String :=
  match pdfBody env with
  | Except.ok s => Except.ok s
  | Except.error _ => Except.ok ""

/-- The body of `extract_text_from_docx` inside its `try` (etl.py lines 59-68):
paragraph texts stripped, empty ones dropped, joined with newlines. -/
def docxBody (env : FileEnv) : Except PyExc String :=
  if env.pathExists = false then Except.ok ""
  else
    match env.docxParas with
    | Except.error e => Except.error e
    | Except.ok paras =>
      Except.ok (String.intercalate "\n"
        ((paras.map pyStrip).filter (fun s => s ≠ "")))

/-- `extract_text_from_docx` (etl.py lines 57-73): outer `except` yields `""`. -/
def extract_text_from_docx (env : FileEnv) : Except PyExc String :=
  match docxBody env with
  | Except.ok s => Except.ok s
  | Except.error _ => Except.ok ""

/-- Final path component (name) of a POSIX or Windows style path. -/
def pathName (p : String) : String :=
  String.mk ((p.data.reverse.takeWhile (fun c => c != '/' && c != '\\')).reverse)

/-- `Path(path).suffix` of pathlib: the extension of the final component,
empty when the name has no dot, ends in a dot, or starts with its only dot. -/
def pathSuffix (p : String) : String :=
  let n := (pathName p).data
  if '.' ∈ n then
    let after := (n.reverse.takeWhile (fun c => c != '.')).reverse
    if after ≠ [] ∧ n.length - after.length - 1 ≠ 0 then
      String.mk ('.' :: after)
    else ""
  else ""

/-- Python `str.lower()` (ASCII suffices for the extension strings used). -/
def pyLower (s : String) : String := String.mk (s.data.map Char.toLower)

/-- Whether a modelled call raised. -/
def isExcError {α : Type} : Except PyExc α → Bool
  | Except.error _ => true
  | Except.ok _ => false

/-- The image extensions dispatched to OCR (etl.py line 152). -/
def imageExts : List String := [".png", ".jpg", ".jpeg", ".tiff", ".bmp", ".gif"]

/-- Every extension with a dedicated dispatch branch in `extract_from_file`. -/
def recognizedExts : List String := [".pdf", ".docx", ".doc"] ++ imageExts

/-- The body of `extract_from_file` inside its outer `try` (etl.py lines
145-162).  Note the fourth branch: *any* existing regular file that did not
match a known extension is opened as UTF-8 text; only `UnicodeDecodeError`
is caught there, every other exception propagates to the outer handler. -/
def extract_from_file_body (env : FileEnv) (path : String) :
    Except PyExc String :=
  let ext := pyLower (pathSuffix path)
  if ext = ".pdf" then extract_text_from_pdf env
  else if ext = ".docx" ∨ ext = ".doc" then extract_text_from_docx env
  else if ext ∈ imageExts then Except.ok (extract_text_from_image env.img).1
  else if env.isFile then
    match env.readUtf8 with
    | Except.ok s => Except.ok s
    | Except.error PyExc.unicodeDecodeError => Except.ok ""
    | Except.error e => Except.error e
  else Except.ok ""

/-- `extract_from_file` (etl.py lines 143-166): the outer `except Exception`
turns any raise into `""`. -/
def extract_from_file (env : FileEnv) (path : String) : Except PyExc String :=
  match extract_from_file_body env path with
  | Except.ok s => Except.ok s
  | Except.error _ => Except.ok ""

/-- `doc_to_chunks` (etl.py lines 172-226): extract, then chunk; its own
`try/except` returns `[]` if anything inside were to raise. -/
def doc_to_chunks (env : FileEnv) (docLocalPath docId : String)
    (chunkSize overlap : Nat) : List Chunk :=
  match extract_from_file env docLocalPath with
  | Except.error _ => []
  | Except.ok text => chunkText docLocalPath docId text chunkSize overlap

/-! ## Vector store layer (scripts/vectorstore.py, create_chroma_from_chunks) -/

/-- A langchain `Document` as passed to `Chroma.from_documents`. -/
structure VDoc where
  page_content : String
  metadata : ChunkMeta
deriving DecidableEq, Repr

/-- Oracle for `RecursiveCharacterTextSplitter(chunk_size, chunk_overlap)`:
`none` means constructing or running the splitter raised (vectorstore.py
lines 42-44 then fall back to the unsplit documents). -/
structure VsEnv where
  splitter : Nat → Nat → Option (String → List String)

/-- The document list built from the chunk dicts (vectorstore.py lines 22-30):
`text = c.get("text", "").strip()`, kept only when non-empty. -/
def chunkDocs (chunks : List Chunk) : List VDoc :=
  chunks.filterMap (fun c =>
    if pyStrip c.text = "" then none
    else some { page_content := pyStrip c.text, metadata := c.metadata })

/-- The documents `create_chroma_from_chunks` hands to
`Chroma.from_documents` (vectorstore.py lines 17-53): `none` when the vector
store is never called (empty input or no valid chunk). The splitter re-splits
each document text with fixed parameters 800/100, keeping its metadata. -/
def chromaInputDocs (env : VsEnv) (chunks : List Chunk) : Option (List VDoc) :=
  if chunks = [] then none
  else
    let docs := chunkDocs chunks
    if docs = [] then none
    else
      match env.splitter 800 100 with
      | some f =>
        some (docs.flatMap (fun d =>
          (f d.page_content).map
            (fun s => { page_content := s, metadata := d.metadata })))
      | none => some docs

/-! ## Orchestrator (scripts/etl_runner.py, run_etl) -/

/-- One record of the Drive listing (`files(id,name,mimeType,modifiedTime)`).
`dict.get` can yield `None` for any key, hence the `Option`s. -/
structure DriveFile where
  id : Option String
  name : Option String
  mimeType : Option String
  modifiedTime : Option String
deriving DecidableEq, Repr

/-- The persisted ingested-files map (./data/ingested_files.json): a JSON
object from file id to modifiedTime, kept here as an ordered association
list exactly like a Python dict. -/
abbrev SyncMap := List (String × Option String)

/-- Python `m[k]` lookup (first matching key). -/
def lookupMap : SyncMap → String → Option (Option String)
  | [], _ => none
  | (k, v) :: rest, key => if k = key then some v else lookupMap rest key

/-- Python `m[k] = v`: replace in place, else append. -/
def insertMap : SyncMap → String → Option String → SyncMap
  | [], key, v => [(key, v)]
  | (k, v0) :: rest, key, v =>
    if k = key then (k, v) :: rest else (k, v0) :: insertMap rest key v

/-- Observable side effects of one run, in order. -/
inductive EtlEvent where
  | download (fid : String)
  | extract (fid : String)
  | indexBatch (n : Nat)
deriving DecidableEq, Repr

/-- Oracle for one `run_etl` run: the listing and the outcome of every
external call.  `downloadOk fid` covers both `download_file` succeeding and
the downloaded path existing; `chunksFor fid` is the result of
`doc_to_chunks` on the downloaded file; `indexOk = false` covers
`create_chroma_from_chunks` returning `None` as well as raising. -/
structure RunEnv where
  files : List DriveFile
  serviceOk : Bool
  listOk : Bool
  embeddingsOk : Bool
  loadOk : Bool
  downloadOk : String → Bool
  chunksFor : String → List Chunk
  indexOk : Bool
  saveOk : Bool

/-- The metadata update of etl_runner.py lines 99-104. -/
def annotateChunk (f : DriveFile) (c : Chunk) : Chunk :=
  { c with metadata :=
    { c.metadata with
        file_name := some (f.name.getD "Unnamed")
        mimeType := some f.mimeType
        modifiedTime := some f.modifiedTime } }

/-- The per-file loop body (etl_runner.py lines 66-113) acting on the state
(in-memory ingested map, accumulated chunk batch, event trace).  A falsy id
(missing or empty) is skipped with a warning before anything else; a file
whose stored marker equals its current `modifiedTime` is skipped; otherwise
the file is downloaded, extracted and chunked, and only when the chunk list
is non-empty is the map updated in memory. -/
def processFile (env : RunEnv) (st : SyncMap × List Chunk × List EtlEvent)
    (f : DriveFile) : SyncMap × List Chunk × List EtlEvent :=
  match f.id with
  | none => st
  | some fid =>
    if fid = "" then st
    else if lookupMap st.1 fid = some f.modifiedTime then st
    else
      if env.downloadOk fid then
        if env.chunksFor fid = [] then
          (st.1, st.2.1, st.2.2 ++ [EtlEvent.download fid, EtlEvent.extract fid])
        else
          (insertMap st.1 fid f.modifiedTime,
           st.2.1 ++ (env.chunksFor fid).map (annotateChunk f),
           st.2.2 ++ [EtlEvent.download fid, EtlEvent.extract fid])
      else (st.1, st.2.1, st.2.2 ++ [EtlEvent.download fid])

/-- `load_ingested_map` (etl_runner.py lines 16-24): the parsed file, or an
empty map when the file is missing or unreadable. -/
def runLoaded (env : RunEnv) (disk : SyncMap) : SyncMap :=
  if env.loadOk then disk else []

/-- What a run leaves behind: the event trace, the in-memory map after the
loop, the map persisted on disk after the run, the accumulated batch, and
whether the batch was successfully indexed. -/
structure RunResult where
  events : List EtlEvent
  finalMap : SyncMap
  persisted : SyncMap
  batch : List Chunk
  indexedOk : Bool
deriving Repr

/-- Result of a run that returned early: nothing happened, disk untouched. -/
def noRun (disk : SyncMap) : RunResult :=
  { events := [], finalMap := disk, persisted := disk, batch := [],
    indexedOk := false }

/-- The tail of `run_etl` after the per-file loop (etl_runner.py lines
115-133): index the accumulated batch when non-empty (the outcome only
affects `indexedOk` — every outcome falls through), then unconditionally
attempt `save_ingested_map(ingested)`, which persists the in-memory map
whenever the save itself succeeds. -/
def mkRunResult (env : RunEnv) (disk : SyncMap)
    (st : SyncMap × List Chunk × List EtlEvent) : RunResult :=
  { events :=
      if st.2.1 = [] then st.2.2
      else st.2.2 ++ [EtlEvent.indexBatch st.2.1.length]
    finalMap := st.1
    persisted := if env.saveOk then st.1 else disk
    batch := st.2.1
    indexedOk := env.indexOk && !st.2.1.isEmpty }

/-- `run_etl` (etl_runner.py lines 37-133).  Early returns (service build,
listing failure, empty listing, embeddings failure) do no work and leave the
disk untouched.  Otherwise: load the map, run the per-file loop over the
listing, and finish with indexing plus the unconditional save. -/
def run_etl (env : RunEnv) (disk : SyncMap) : RunResult :=
  if env.serviceOk ∧ env.listOk ∧ env.files ≠ [] ∧ env.embeddingsOk then
    mkRunResult env disk (env.files.foldl (processFile env)
      (runLoaded env disk, ([] : List Chunk), ([] : List EtlEvent)))
  else noRun disk

/-! ## Concrete instances used by counterexamples and witnesses -/

/-- A file listing record whose indexing will fail. -/
def fileC1 : DriveFile :=
  { id := some "f1", name := some "a.txt", mimeType := some "text/plain",
    modifiedTime := some "t1" }

/-- A run in which one dirty file produces chunks and indexing fails. -/
def envC1 : RunEnv :=
  { files := [fileC1], serviceOk := true, listOk := true,
    embeddingsOk := true, loadOk := true, downloadOk := fun _ => true,
    chunksFor := fun _ => [mkChunk "local" "f1" 0 "hi"],
    indexOk := false, saveOk := true }

/-- A listing record carrying an empty id (`f.get("id")` falsy). -/
def fileC8cex : DriveFile :=
  { id := some "", name := some "noid.txt", mimeType := some "text/plain",
    modifiedTime := some "t2" }

/-- A run whose only file has a falsy id. -/
def envC8cex : RunEnv :=
  { files := [fileC8cex], serviceOk := true, listOk := true,
    embeddingsOk := true, loadOk := true, downloadOk := fun _ => true,
    chunksFor := fun _ => [mkChunk "local" "x" 0 "hi"],
    indexOk := true, saveOk := true }

/-- A well-formed listing record for the skip witness. -/
def fileC8w : DriveFile :=
  { id := some "a", name := some "w.txt", mimeType := some "text/plain",
    modifiedTime := some "t3" }

/-- A run whose only file is current in the stored map `[("a", some "t3")]`. -/
def envC8w : RunEnv :=
  { files := [fileC8w], serviceOk := true, listOk := true,
    embeddingsOk := true, loadOk := true, downloadOk := fun _ => true,
    chunksFor := fun _ => [mkChunk "local" "a" 0 "hi"],
    indexOk := true, saveOk := true }

/-- A listing record whose extraction yields zero chunks. -/
def fileC9 : DriveFile :=
  { id := some "z", name := some "empty.pdf",
    mimeType := some "application/pdf", modifiedTime := some "t4" }

/-- A run whose only file downloads fine but chunks to nothing. -/
def envC9 : RunEnv :=
  { files := [fileC9], serviceOk := true, listOk := true,
    embeddingsOk := true, loadOk := true, downloadOk := fun _ => true,
    chunksFor := fun _ => [], indexOk := true, saveOk := true }

/-- Two chunks identical except for their id field. -/
def vsChunkA : Chunk :=
  { id := "idA", text := " hello world ",
    metadata := { source := "p", doc_id := "d", chunk_index := 0 } }

def vsChunkB : Chunk :=
  { id := "idB", text := " hello world ",
    metadata := { source := "p", doc_id := "d", chunk_index := 0 } }

/-- A trivial working splitter oracle. -/
def vsEnvC10 : VsEnv := { splitter := fun _ _ => some (fun s => [s]) }

/-! ## Helper lemmas: Python string primitives -/

lemma string_mk_ne_empty (l : List Char) (h : l ≠ []) : String.mk l ≠ "" := by
  intro hcon
  exact h (congrArg String.data hcon)

lemma mem_pyWordsAux_ne (l : List Char) :
    ∀ (acc : List Char) (w : String), w ∈ pyWordsAux l acc → w ≠ "" := by
  induction l with
  | nil =>
    intro acc w hw
    unfold pyWordsAux at hw
    by_cases h : acc = []
    · simp [h] at hw
    · simp [h] at hw
      subst hw
      exact string_mk_ne_empty _ (by simpa using h)
  | cons c cs ih =>
    intro acc w hw
    unfold pyWordsAux at hw
    by_cases hws : c.isWhitespace
    · rw [if_pos hws] at hw
      by_cases h : acc = []
      · rw [if_pos h] at hw
        exact ih [] w hw
      · rw [if_neg h] at hw
        rcases List.mem_cons.mp hw with h1 | h2
        · subst h1
          exact string_mk_ne_empty _ (by simpa using h)
        · exact ih [] w h2
    · rw [if_neg hws] at hw
      exact ih (c :: acc) w hw

lemma mem_pyWords_ne (s : String) (w : String) (hw : w ∈ pyWords s) : w ≠ "" :=
  mem_pyWordsAux_ne s.data [] w hw

lemma pyWordsAux_eq_nil_iff (l : List Char) :
    ∀ acc : List Char,
      pyWordsAux l acc = [] ↔ (acc = [] ∧ ∀ c ∈ l, c.isWhitespace) := by
  induction l with
  | nil =>
    intro acc
    unfold pyWordsAux
    by_cases h : acc = [] <;> simp [h]
  | cons c cs ih =>
    intro acc
    unfold pyWordsAux
    by_cases hws : c.isWhitespace
    · rw [if_pos hws]
      by_cases h : acc = []
      · rw [if_pos h]
        rw [ih]
        simp [h, hws]
      · rw [if_neg h]
        simp [h, hws]
    · rw [if_neg hws]
      rw [ih]
      simp [hws]

lemma pyStrip_eq_empty_iff (s : String) :
    pyStrip s = "" ↔ ∀ c ∈ s.data, c.isWhitespace := by
  unfold pyStrip
  constructor
  · intro h c hc
    have hdata : (((s.data.dropWhile Char.isWhitespace).reverse.dropWhile
        Char.isWhitespace).reverse) = [] := congrArg String.data h
    rw [List.reverse_eq_nil_iff, List.dropWhile_eq_nil_iff] at hdata
    have hall : ∀ x ∈ s.data.dropWhile Char.isWhitespace, x.isWhitespace := by
      intro x hx
      exact hdata x (List.mem_reverse.mpr hx)
    rcases (List.mem_append.mp
        (by rw [List.takeWhile_append_dropWhile (p := Char.isWhitespace)]
            exact hc)) with h1 | h2
    · exact List.mem_takeWhile_imp h1
    · exact hall c h2
  · intro h
    have : s.data.dropWhile Char.isWhitespace = [] :=
      List.dropWhile_eq_nil_iff.mpr (fun x hx => h x hx)
    rw [this]
    rfl

lemma pyWords_eq_nil_of_strip (s : String) (h : pyStrip s = "") :
    pyWords s = [] := by
  unfold pyWords
  rw [pyWordsAux_eq_nil_iff]
  exact ⟨rfl, (pyStrip_eq_empty_iff s).mp h⟩

lemma joinWords_ne_empty (l : List String) (hne : l ≠ [])
    (h : ∀ w ∈ l, w ≠ "") : joinWords l ≠ "" := by
  match l with
  | [] => exact absurd rfl hne
  | [w] =>
    simpa [joinWords] using h w (by simp)
  | w :: x :: xs =>
    intro hcon
    have hdata := congrArg String.data hcon
    simp only [joinWords, String.data_append] at hdata
    simp at hdata

lemma sumLen_nil : sumLen [] = 0 := rfl

lemma sumLen_snoc (l : List String) (w : String) :
    sumLen (l ++ [w]) = sumLen l + (w.length + 1) := by
  simp [sumLen]

lemma mem_pySliceFrom {α : Type} (l : List α) (i : Int) (a : α)
    (h : a ∈ pySliceFrom l i) : a ∈ l := by
  unfold pySliceFrom at h
  split at h <;> exact List.mem_of_mem_drop h

lemma fdiv_neg_ten (ov : Nat) :
    Int.fdiv (-(ov : Int)) 10 = -(((ov + 9) / 10 : Nat) : Int) := by
  cases ov with
  | zero => rfl
  | succ k =>
    have h1 : (-(((k + 1 : Nat)) : Int)) = Int.negSucc k := by
      rw [Int.negSucc_eq]
      push_cast
      ring
    rw [h1]
    have h2 : Int.fdiv (Int.negSucc k) 10 = Int.negSucc (k / 10) := rfl
    rw [h2, Int.negSucc_eq]
    have h3 : (k + 1 + 9) / 10 = k / 10 + 1 := by omega
    rw [h3]
    push_cast
    ring

lemma overlapSeed_eq_nil (ov : Nat) (w : String) :
    overlapSeed [] ov w = [w] := by
  unfold overlapSeed pySliceFrom
  split <;> simp

/-! ## Chunker invariant: emitted chunk texts are nonempty when every word
individually fits in a chunk -/

lemma chunkLoop_text_ne (srcPath docId : String) (cs ov : Nat) :
    ∀ (ws current : List String) (cid : Nat),
      (∀ w ∈ ws, w ≠ "" ∧ w.length + 1 ≤ cs) →
      (∀ w ∈ current, w ≠ "") →
      ∀ c ∈ chunkLoop srcPath docId cs ov ws current (sumLen current) cid,
        c.text ≠ "" := by
  intro ws
  induction ws with
  | nil =>
    intro current cid _ hcur c hc
    unfold chunkLoop at hc
    by_cases h : current = []
    · simp [h] at hc
    · rw [if_neg h] at hc
      rcases List.mem_singleton.mp hc with rfl
      exact joinWords_ne_empty current h hcur
  | cons w ws ih =>
    intro current cid hws hcur c hc
    unfold chunkLoop at hc
    by_cases h : sumLen current + w.length + 1 ≤ cs
    · rw [if_pos h] at hc
      rw [show sumLen current + w.length + 1 = sumLen (current ++ [w]) from
        (sumLen_snoc current w).symm] at hc
      refine ih (current ++ [w]) cid
        (fun x hx => hws x (List.mem_cons_of_mem w hx)) ?_ c hc
      intro x hx
      rcases List.mem_append.mp hx with h1 | h2
      · exact hcur x h1
      · rcases List.mem_singleton.mp h2 with rfl
        exact (hws x (List.mem_cons_self x ws)).1
    · rw [if_neg h] at hc
      have hcurne : current ≠ [] := by
        intro hnil
        subst hnil
        rw [sumLen_nil] at h
        exact h (by simpa using (hws w (List.mem_cons_self w ws)).2)
      rcases List.mem_cons.mp hc with h1 | h2
      · subst h1
        exact joinWords_ne_empty current hcurne hcur
      · refine ih (overlapSeed current ov w) (cid + 1)
          (fun x hx => hws x (List.mem_cons_of_mem w hx)) ?_ c h2
        intro x hx
        unfold overlapSeed at hx
        rcases List.mem_append.mp hx with hs | hw
        · exact hcur x (mem_pySliceFrom _ _ x hs)
        · rcases List.mem_singleton.mp hw with rfl
          exact (hws x (List.mem_cons_self x ws)).1

/-! ## Claim C2 -/

/-- Claim C2, counterexample.  At `overlap = 5` the code (etl.py line 206,
`current_chunk[-overlap//10:]`, slice index `(-5)//10 = -1`) seeds the next
chunk with the last ONE word of the just-closed chunk plus the trigger word,
while the claim predicts the trigger word alone (`floor(5/10) = 0` words);
so on input "aa bb" with `chunk_size = 3` the second chunk is "aa bb", not
"bb". -/
theorem c2_overlap_seed_counterexample :
    overlapSeed ["aa"] 5 "bb" = ["aa", "bb"] ∧
    specSeed ["aa"] 5 "bb" = ["bb"] ∧
    (chunkText "p" "d" "aa bb" 3 5).map Chunk.text = ["aa", "aa bb"] := by
  decide

/-- Claim C2, amended: when the chunker closes a chunk, the next chunk is
seeded with the last `ceil(overlap / 10)` words of the just-closed chunk
(the whole chunk when `overlap = 0`, because the Python slice start is then
`-0 = 0`) followed by the word that triggered the split.  The slice index
written in the code is `(-overlap) // 10`, a floor division of a negative
number, hence the ceiling. -/
theorem c2_overlap_seed_amended (current : List String) (overlap : Nat)
    (w : String) :
    overlapSeed current overlap w =
      (if overlap = 0 then current else pyLastN current ((overlap + 9) / 10))
        ++ [w] := by
  unfold overlapSeed
  rw [fdiv_neg_ten]
  by_cases h : overlap = 0
  · subst h
    simp [pySliceFrom]
  · rw [if_neg h]
    have hk : 1 ≤ (overlap + 9) / 10 := by omega
    unfold pySliceFrom
    rw [if_neg (by omega)]
    unfold pyLastN
    congr 2
    omega

/-! ## Claim C4 -/

/-- Claim C4, counterexample.  A word at least as long as `chunk_size`
arriving on an empty accumulator closes the empty accumulator as a chunk:
`doc_to_chunks` on extracted text "abcd" with `chunk_size = 3` emits a chunk
whose text is the empty string, refuting the invariant that every emitted
chunk has non-empty text. -/
theorem c4_empty_chunk_counterexample :
    (chunkText "p" "d" "abcd" 3 100).map Chunk.text = ["", "abcd"] := by
  decide

/-- Claim C4, amended: every chunk emitted by the chunker has non-empty text
provided every word of the normalized input satisfies
`len(word) + 1 <= chunk_size` (so that no word can overflow an empty
accumulator).  Without that proviso a leading empty-text chunk is emitted,
as the counterexample shows. -/
theorem c4_chunk_text_nonempty_amended (srcPath docId text : String)
    (cs ov : Nat) (hfit : ∀ w ∈ pyWords text, w.length + 1 ≤ cs) :
    ∀ c ∈ chunkText srcPath docId text cs ov, c.text ≠ "" := by
  intro c hc
  unfold chunkText at hc
  by_cases h : pyStrip text = ""
  · simp [h] at hc
  · rw [if_neg h] at hc
    exact chunkLoop_text_ne srcPath docId cs ov (pyWords text) [] 0
      (fun w hw => ⟨mem_pyWords_ne text w hw, hfit w hw⟩)
      (by intro w hw; simp at hw) c hc

/-- Witness for the amended claim C4 at a concrete input. -/
theorem c4_witness : (mkChunk "p" "d" 0 "ab cd").text ≠ "" :=
  c4_chunk_text_nonempty_amended "p" "d" "ab cd" 10 100 (by decide)
    (mkChunk "p" "d" 0 "ab cd") (by decide)

/-! ## Claim C7 -/

/-- Claim C7, counterexample.  A single word longer than `chunk_size` does
terminate and is kept untruncated, but the output is TWO chunks, the first
one empty (the overflow closes the still-empty accumulator), not exactly one
chunk as claimed: on "hello" with `chunk_size = 4` the chunker returns chunk
ids 0 and 1 with texts "" and "hello". -/
theorem c7_two_chunks_counterexample :
    (chunkText "q" "e" "hello" 4 7).map Chunk.text = ["", "hello"] ∧
    (chunkText "q" "e" "hello" 4 7).length = 2 := by
  decide

/-- Claim C7, amended: for an input that normalizes to a single word whose
length exceeds `chunk_size`, the chunker terminates and emits exactly two
chunks: a first chunk with empty text (index 0) and a second chunk holding
the whole untruncated word (index 1). -/
theorem c7_single_long_word_amended (srcPath docId text w : String)
    (cs ov : Nat) (hw : pyWords text = [w]) (hlong : cs < w.length) :
    chunkText srcPath docId text cs ov =
      [mkChunk srcPath docId 0 "", mkChunk srcPath docId 1 w] := by
  unfold chunkText
  have hstrip : ¬ pyStrip text = "" := by
    intro h
    rw [pyWords_eq_nil_of_strip text h] at hw
    exact List.cons_ne_nil w [] hw.symm
  rw [if_neg hstrip, hw]
  unfold chunkLoop
  rw [if_neg (by omega)]
  rw [overlapSeed_eq_nil]
  unfold chunkLoop
  rw [if_neg (by simp)]
  rfl

/-- Witness for the amended claim C7 at a concrete input. -/
theorem c7_witness :
    chunkText "p" "d" "hello" 4 100 =
      [mkChunk "p" "d" 0 "", mkChunk "p" "d" 1 "hello"] :=
  c7_single_long_word_amended "p" "d" "hello" "hello" 4 100 (by decide)
    (by decide)

/-! ## Image extractor helper lemmas -/

lemma preprocess_not_none_true (e : ImgEnv) :
    (preprocess_image_for_ocr e).1 = none →
      (preprocess_image_for_ocr e).2 = false := by
  unfold preprocess_image_for_ocr
  by_cases h : e.imreadOk = false
  · rw [if_pos h]
    intro
    rfl
  · rw [if_neg h]
    cases e.cvOps with
    | error ex => intro; rfl
    | ok u =>
      cases e.imwrite with
      | error ex => intro; rfl
      | ok w => intro hcon; simp at hcon

/-! ## Claim C3 -/

/-- Claim C3, counterexample.  When preprocessing writes the temp image and
the first OCR call on it raises (for example, the Tesseract binary is
missing), `extract_text_from_image` catches the exception and returns the
empty string, but `os.remove` (etl.py line 114) was never reached: the temp
file is still on disk when the extractor returns, refuting guaranteed
cleanup on all exit paths. -/
theorem c3_temp_file_leak_counterexample :
    extract_text_from_image
      { imreadOk := true, cvOps := Except.ok (), imwrite := Except.ok true,
        ocrProcessed := Except.error PyExc.otherError,
        ocrOriginal := Except.ok "", ocrPsm6 := Except.ok "" } = ("", true) := by
  decide

/-- Claim C3, amended: the preprocessing temp file is deleted before
`extract_text_from_image` returns on every exit path EXCEPT one — it is left
on disk exactly when preprocessing wrote it and the first OCR call on it
raised.  (Whether OCR succeeds or merely yields no text, the file is
removed; only the raising path leaks it.) -/
theorem c3_temp_cleanup_amended (e : ImgEnv) :
    (extract_text_from_image e).2 =
      ((preprocess_image_for_ocr e).2 && isExcError e.ocrProcessed) := by
  have hAfter : ∀ t, (imageResultAfterRemove e t).2 = false := by
    intro t
    unfold imageResultAfterRemove
    cases imageFallbacks e t <;> rfl
  have hNo : ∀ b, (imageResultNoTemp e b).2 = b := by
    intro b
    unfold imageResultNoTemp
    cases imageFallbacks e "" <;> rfl
  unfold extract_text_from_image
  cases hpp : preprocess_image_for_ocr e with
  | mk pp temp =>
    cases pp with
    | some p =>
      cases temp with
      | true =>
        cases hop : e.ocrProcessed with
        | error ex => simp [isExcError]
        | ok t => simp [isExcError, hAfter t]
      | false => simp [isExcError, hNo false]
    | none =>
      have htemp : temp = false := by
        have := preprocess_not_none_true e
        rw [hpp] at this
        exact this rfl
      subst htemp
      simp [isExcError, hNo false]

/-! ## Claims C5 and C6 -/

/-- Claim C5, counterexample.  An EXISTING regular file with an unrecognized
extension is not skipped: `extract_from_file` falls into the plain-text
branch (etl.py line 154, `os.path.isfile`), reads the file as UTF-8 and
returns its content — here "hello", not the empty string.  The
skip-and-return-empty branch applies only to missing paths or non-regular
files. -/
theorem c5_unknown_format_counterexample :
    extract_from_file
      { pathExists := true, isFile := true, readUtf8 := Except.ok "hello",
        pdf := { openPdf := Except.ok [] }, docxParas := Except.ok [],
        img := { imreadOk := false, cvOps := Except.ok (),
                 imwrite := Except.ok false, ocrProcessed := Except.ok "",
                 ocrOriginal := Except.ok "", ocrPsm6 := Except.ok "" } }
      "notes.xyz" = Except.ok "hello" ∧ ("hello" : String) ≠ "" := by
  constructor
  · decide
  · decide

/-- Claim C5, amended: for a file whose (lowercased) extension has no
dispatch branch, `extract_from_file` skips with an empty string only when
the path is NOT an existing regular file; when it is, the file is read as
UTF-8 text and its content returned, with the empty string only on a read
or decode failure. -/
theorem c5_unknown_format_amended (env : FileEnv) (path : String)
    (hext : pyLower (pathSuffix path) ∉ recognizedExts) :
    (env.isFile = true →
      extract_from_file env path =
        (match env.readUtf8 with
         | Except.ok s => Except.ok s
         | Except.error _ => Except.ok "")) ∧
    (env.isFile = false → extract_from_file env path = Except.ok "") := by
  have h1 : ¬ pyLower (pathSuffix path) = ".pdf" := by
    intro h; exact hext (by rw [h]; decide)
  have h2 : ¬ (pyLower (pathSuffix path) = ".docx" ∨
      pyLower (pathSuffix path) = ".doc") := by
    rintro (h | h) <;> exact hext (by rw [h]; decide)
  have h3 : ¬ pyLower (pathSuffix path) ∈ imageExts := by
    intro h
    exact hext (by
      simp only [recognizedExts, List.mem_append]
      exact Or.inr h)
  constructor
  · intro hf
    unfold extract_from_file extract_from_file_body
    rw [if_neg h1, if_neg h2, if_neg h3, if_pos hf]
    cases hr : env.readUtf8 with
    | ok s => rfl
    | error e => cases e <;> rfl
  · intro hf
    unfold extract_from_file extract_from_file_body
    rw [if_neg h1, if_neg h2, if_neg h3, if_neg (by simp [hf])]

/-- Witness for the amended claim C5 at a concrete input. -/
theorem c5_witness :
    extract_from_file
      { pathExists := true, isFile := true, readUtf8 := Except.ok "abc",
        pdf := { openPdf := Except.ok [] }, docxParas := Except.ok [],
        img := { imreadOk := false, cvOps := Except.ok (),
                 imwrite := Except.ok false, ocrProcessed := Except.ok "",
                 ocrOriginal := Except.ok "", ocrPsm6 := Except.ok "" } }
      "data.bin" = Except.ok "abc" :=
  (c5_unknown_format_amended _ "data.bin" (by decide)).1 rfl

/-- Claim C6, confirmed: for every oracle behaviour (every library call may
raise) and every path, `extract_from_file` and the format-specific
extractors it dispatches to return a value rather than propagating an
exception, and whenever the body inside the outer `try` raises, the caught
result is the empty string.  (`extract_text_from_image` is total by
construction: its outer handler is part of its definition, see claim C3.) -/
theorem c6_extract_never_raises (env : FileEnv) (path : String) :
    (∃ s, extract_from_file env path = Except.ok s) ∧
    (∀ e, extract_from_file_body env path = Except.error e →
      extract_from_file env path = Except.ok "") ∧
    (∃ s, extract_text_from_pdf env = Except.ok s) ∧
    (∀ e, pdfBody env = Except.error e →
      extract_text_from_pdf env = Except.ok "") ∧
    (∃ s, extract_text_from_docx env = Except.ok s) ∧
    (∀ e, docxBody env = Except.error e →
      extract_text_from_docx env = Except.ok "") := by
  refine ⟨?_, ?_, ?_, ?_, ?_, ?_⟩
  · unfold extract_from_file
    cases h : extract_from_file_body env path with
    | ok s => exact ⟨s, rfl⟩
    | error e => exact ⟨"", rfl⟩
  · intro e he
    unfold extract_from_file
    rw [he]
  · unfold extract_text_from_pdf
    cases h : pdfBody env with
    | ok s => exact ⟨s, rfl⟩
    | error e => exact ⟨"", rfl⟩
  · intro e he
    unfold extract_text_from_pdf
    rw [he]
  · unfold extract_text_from_docx
    cases h : docxBody env with
    | ok s => exact ⟨s, rfl⟩
    | error e => exact ⟨"", rfl⟩
  · intro e he
    unfold extract_text_from_docx
    rw [he]

/-! ## Orchestrator helper lemmas -/

lemma lookupMap_insertMap_ne (m : SyncMap) (k k' : String) (v : Option String)
    (h : k ≠ k') :
    lookupMap (insertMap m k v) k' = lookupMap m k' := by
  induction m with
  | nil => simp [insertMap, lookupMap, h]
  | cons p rest ih =>
    obtain ⟨k0, v0⟩ := p
    unfold insertMap
    by_cases hk : k0 = k
    · rw [if_pos hk]
      have hk0 : ¬ (k0 = k') := by rw [hk]; exact h
      unfold lookupMap
      rw [if_neg hk0, if_neg hk0]
    · rw [if_neg hk]
      unfold lookupMap
      by_cases hk' : k0 = k'
      · rw [if_pos hk', if_pos hk']
      · rw [if_neg hk', if_neg hk']
        exact ih

lemma processFile_current (env : RunEnv)
    (st : SyncMap × List Chunk × List EtlEvent) (f : DriveFile) (fid : String)
    (hid : f.id = some fid)
    (hcur : lookupMap st.1 fid = some f.modifiedTime) :
    processFile env st f = st := by
  simp only [processFile, hid]
  by_cases h1 : fid = ""
  · rw [if_pos h1]
  · rw [if_neg h1, if_pos hcur]

lemma processFile_events (env : RunEnv)
    (st : SyncMap × List Chunk × List EtlEvent) (f : DriveFile) :
    ∃ t, (processFile env st f).2.2 = st.2.2 ++ t ∧
      ∀ e ∈ t, ∃ k, f.id = some k ∧
        (e = EtlEvent.download k ∨ e = EtlEvent.extract k) := by
  unfold processFile
  cases hid : f.id with
  | none => exact ⟨[], by simp⟩
  | some fid =>
    by_cases h1 : fid = ""
    · exact ⟨[], by simp [h1]⟩
    · by_cases h2 : lookupMap st.1 fid = some f.modifiedTime
      · exact ⟨[], by simp [h1, h2]⟩
      · by_cases h3 : env.downloadOk fid = true
        · by_cases h4 : env.chunksFor fid = []
          · refine ⟨[EtlEvent.download fid, EtlEvent.extract fid], ?_, ?_⟩
            · simp [h1, h2, h3, h4]
            · intro e he
              rcases List.mem_cons.mp he with rfl | he2
              · exact ⟨fid, rfl, Or.inl rfl⟩
              · rcases List.mem_singleton.mp he2 with rfl
                exact ⟨fid, rfl, Or.inr rfl⟩
          · refine ⟨[EtlEvent.download fid, EtlEvent.extract fid], ?_, ?_⟩
            · simp [h1, h2, h3, h4]
            · intro e he
              rcases List.mem_cons.mp he with rfl | he2
              · exact ⟨fid, rfl, Or.inl rfl⟩
              · rcases List.mem_singleton.mp he2 with rfl
                exact ⟨fid, rfl, Or.inr rfl⟩
        · refine ⟨[EtlEvent.download fid], ?_, ?_⟩
          · simp [h1, h2, h3]
          · intro e he
            rcases List.mem_singleton.mp he with rfl
            exact ⟨fid, rfl, Or.inl rfl⟩

lemma processFile_lookup_preserved (env : RunEnv)
    (st : SyncMap × List Chunk × List EtlEvent) (f : DriveFile) (fid : String)
    (h : f.id ≠ some fid ∨ fid = "" ∨ env.downloadOk fid = false ∨
      env.chunksFor fid = []) :
    lookupMap (processFile env st f).1 fid = lookupMap st.1 fid := by
  unfold processFile
  cases hid : f.id with
  | none => rfl
  | some k =>
    by_cases h1 : k = ""
    · simp [h1]
    · by_cases h2 : lookupMap st.1 k = some f.modifiedTime
      · simp [h1, h2]
      · by_cases h3 : env.downloadOk k = true
        · by_cases h4 : env.chunksFor k = []
          · simp [h1, h2, h3, h4]
          · have hk : k ≠ fid := by
              rcases h with h | h | h | h
              · intro he; exact h (by rw [hid, he])
              · intro he; exact h1 (by rw [he, h])
              · intro he; rw [he, h] at h3; exact Bool.false_ne_true h3
              · intro he; rw [he] at h4; exact h4 h
            simp [h1, h2, h3, h4]
            exact lookupMap_insertMap_ne st.1 k fid f.modifiedTime hk
        · simp [h1, h2, h3]

lemma foldl_lookup_preserved (env : RunEnv) (fid : String) :
    ∀ (fs : List DriveFile) (st : SyncMap × List Chunk × List EtlEvent),
      (∀ g ∈ fs, g.id ≠ some fid ∨ fid = "" ∨ env.downloadOk fid = false ∨
        env.chunksFor fid = []) →
      lookupMap (fs.foldl (processFile env) st).1 fid = lookupMap st.1 fid := by
  intro fs
  induction fs with
  | nil => intro st _; rfl
  | cons g rest ih =>
    intro st h
    rw [List.foldl_cons]
    rw [ih (processFile env st g) (fun x hx => h x (List.mem_cons_of_mem g hx))]
    exact processFile_lookup_preserved env st g fid
      (h g (List.mem_cons_self g rest))

lemma foldl_events_mono (env : RunEnv) (ev : EtlEvent) :
    ∀ (fs : List DriveFile) (st : SyncMap × List Chunk × List EtlEvent),
      ev ∈ st.2.2 → ev ∈ (fs.foldl (processFile env) st).2.2 := by
  intro fs
  induction fs with
  | nil => intro st h; exact h
  | cons g rest ih =>
    intro st h
    rw [List.foldl_cons]
    apply ih
    obtain ⟨t, ht, _⟩ := processFile_events env st g
    rw [ht]
    exact List.mem_append_left t h

lemma foldl_no_events_absent (env : RunEnv) (fid : String) (ev : EtlEvent)
    (hev : ev = EtlEvent.download fid ∨ ev = EtlEvent.extract fid) :
    ∀ (fs : List DriveFile) (st : SyncMap × List Chunk × List EtlEvent),
      (∀ g ∈ fs, g.id ≠ some fid) → ev ∉ st.2.2 →
      ev ∉ (fs.foldl (processFile env) st).2.2 := by
  intro fs
  induction fs with
  | nil => intro st _ h; exact h
  | cons g rest ih =>
    intro st habs h
    rw [List.foldl_cons]
    apply ih _ (fun x hx => habs x (List.mem_cons_of_mem g hx))
    obtain ⟨t, ht, hchar⟩ := processFile_events env st g
    rw [ht]
    intro hcon
    rcases List.mem_append.mp hcon with hin | hin
    · exact h hin
    · obtain ⟨k, hk, hdk⟩ := hchar ev hin
      have hgne : g.id ≠ some fid := habs g (List.mem_cons_self g rest)
      have hkne : k ≠ fid := fun he => hgne (he ▸ hk)
      rcases hev with rfl | rfl
      · rcases hdk with hd | hd
        · injection hd with hf; exact hkne hf.symm
        · exact EtlEvent.noConfusion hd
      · rcases hdk with hd | hd
        · exact EtlEvent.noConfusion hd
        · injection hd with hf; exact hkne hf.symm

lemma processFile_dirty_events (env : RunEnv)
    (st : SyncMap × List Chunk × List EtlEvent) (f : DriveFile) (fid : String)
    (hid : f.id = some fid) (hne : fid ≠ "")
    (hdirty : lookupMap st.1 fid ≠ some f.modifiedTime) :
    EtlEvent.download fid ∈ (processFile env st f).2.2 ∧
    (env.downloadOk fid = true →
      EtlEvent.extract fid ∈ (processFile env st f).2.2) := by
  simp only [processFile, hid]
  rw [if_neg hne, if_neg hdirty]
  by_cases h3 : env.downloadOk fid = true
  · rw [if_pos h3]
    by_cases h4 : env.chunksFor fid = []
    · rw [if_pos h4]
      exact ⟨by simp, fun _ => by simp⟩
    · rw [if_neg h4]
      exact ⟨by simp, fun _ => by simp⟩
  · rw [if_neg h3]
    exact ⟨by simp, fun hcon => absurd hcon h3⟩

lemma nodup_split_ids (files pre post : List DriveFile) (f : DriveFile)
    (fid : String) (hid : f.id = some fid)
    (hsplit : files = pre ++ f :: post)
    (hnodup : (files.filterMap DriveFile.id).Nodup) :
    (∀ g ∈ pre, g.id ≠ some fid) ∧ (∀ g ∈ post, g.id ≠ some fid) := by
  subst hsplit
  rw [List.filterMap_append] at hnodup
  simp only [List.filterMap_cons, hid] at hnodup
  rw [List.nodup_append] at hnodup
  obtain ⟨_, h2, hdisj⟩ := hnodup
  constructor
  · intro g hg hgid
    exact hdisj (List.mem_filterMap.mpr ⟨g, hg, hgid⟩)
      (List.mem_cons_self fid _)
  · intro g hg hgid
    exact (List.nodup_cons.mp h2).1 (List.mem_filterMap.mpr ⟨g, hg, hgid⟩)

lemma mkRunResult_events_mem (env : RunEnv) (disk : SyncMap)
    (st : SyncMap × List Chunk × List EtlEvent) (ev : EtlEvent)
    (h : ev ∈ st.2.2) : ev ∈ (mkRunResult env disk st).events := by
  simp only [mkRunResult]
  split
  · exact h
  · exact List.mem_append_left _ h

lemma mkRunResult_events_not_mem (env : RunEnv) (disk : SyncMap)
    (st : SyncMap × List Chunk × List EtlEvent) (fid : String) (ev : EtlEvent)
    (hev : ev = EtlEvent.download fid ∨ ev = EtlEvent.extract fid)
    (h : ev ∉ st.2.2) : ev ∉ (mkRunResult env disk st).events := by
  simp only [mkRunResult]
  split
  · exact h
  · intro hcon
    rcases List.mem_append.mp hcon with h1 | h2
    · exact h h1
    · rcases hev with rfl | rfl
      · exact EtlEvent.noConfusion (List.mem_singleton.mp h2)
      · exact EtlEvent.noConfusion (List.mem_singleton.mp h2)

lemma run_etl_dirty_mem_events (env : RunEnv) (disk : SyncMap)
    (f : DriveFile) (fid : String) (hmem : f ∈ env.files)
    (hid : f.id = some fid) (hne : fid ≠ "")
    (hnodup : (env.files.filterMap DriveFile.id).Nodup)
    (hs : env.serviceOk = true) (hl : env.listOk = true)
    (hemb : env.embeddingsOk = true)
    (hdirty : lookupMap (runLoaded env disk) fid ≠ some f.modifiedTime) :
    EtlEvent.download fid ∈ (run_etl env disk).events ∧
    (env.downloadOk fid = true →
      EtlEvent.extract fid ∈ (run_etl env disk).events) := by
  obtain ⟨pre, post, hsplit⟩ := List.append_of_mem hmem
  obtain ⟨hpre, _⟩ := nodup_split_ids env.files pre post f fid hid hsplit hnodup
  have hfiles : env.files ≠ [] := by rw [hsplit]; simp
  unfold run_etl
  rw [if_pos ⟨hs, hl, hfiles, hemb⟩]
  rw [hsplit, List.foldl_append, List.foldl_cons]
  have hlook : lookupMap (pre.foldl (processFile env)
      (runLoaded env disk, ([] : List Chunk), ([] : List EtlEvent))).1 fid =
      lookupMap (runLoaded env disk) fid :=
    foldl_lookup_preserved env fid pre _ (fun g hg => Or.inl (hpre g hg))
  have hstep := processFile_dirty_events env
    (pre.foldl (processFile env)
      (runLoaded env disk, ([] : List Chunk), ([] : List EtlEvent))) f fid
    hid hne (by rw [hlook]; exact hdirty)
  constructor
  · exact mkRunResult_events_mem env disk _ _
      (foldl_events_mono env _ post _ hstep.1)
  · intro h3
    exact mkRunResult_events_mem env disk _ _
      (foldl_events_mono env _ post _ (hstep.2 h3))

lemma run_etl_current_no_events (env : RunEnv) (disk : SyncMap)
    (f : DriveFile) (fid : String) (hmem : f ∈ env.files)
    (hid : f.id = some fid)
    (hnodup : (env.files.filterMap DriveFile.id).Nodup)
    (hcur : lookupMap (runLoaded env disk) fid = some f.modifiedTime) :
    EtlEvent.download fid ∉ (run_etl env disk).events ∧
    EtlEvent.extract fid ∉ (run_etl env disk).events := by
  obtain ⟨pre, post, hsplit⟩ := List.append_of_mem hmem
  obtain ⟨hpre, hpost⟩ := nodup_split_ids env.files pre post f fid hid hsplit
    hnodup
  unfold run_etl
  by_cases hflag : env.serviceOk ∧ env.listOk ∧ env.files ≠ [] ∧
    env.embeddingsOk
  · rw [if_pos hflag]
    rw [hsplit, List.foldl_append, List.foldl_cons]
    have hlook : lookupMap (pre.foldl (processFile env)
        (runLoaded env disk, ([] : List Chunk), ([] : List EtlEvent))).1 fid =
        lookupMap (runLoaded env disk) fid :=
      foldl_lookup_preserved env fid pre _ (fun g hg => Or.inl (hpre g hg))
    rw [processFile_current env _ f fid hid (by rw [hlook]; exact hcur)]
    have hinit : ∀ ev : EtlEvent,
        ev ∉ ((runLoaded env disk, ([] : List Chunk),
          ([] : List EtlEvent)) : SyncMap × List Chunk × List EtlEvent).2.2 :=
      fun ev => List.not_mem_nil ev
    constructor
    · exact mkRunResult_events_not_mem env disk _ fid _ (Or.inl rfl)
        (foldl_no_events_absent env fid _ (Or.inl rfl) post _ hpost
          (foldl_no_events_absent env fid _ (Or.inl rfl) pre _ hpre
            (hinit _)))
    · exact mkRunResult_events_not_mem env disk _ fid _ (Or.inr rfl)
        (foldl_no_events_absent env fid _ (Or.inr rfl) post _ hpost
          (foldl_no_events_absent env fid _ (Or.inr rfl) pre _ hpre
            (hinit _)))
  · rw [if_neg hflag]
    exact ⟨List.not_mem_nil _, List.not_mem_nil _⟩

lemma run_etl_finalMap_lookup (env : RunEnv) (disk : SyncMap) (fid : String)
    (hload : env.loadOk = true)
    (h : ∀ g ∈ env.files, g.id ≠ some fid ∨ fid = "" ∨
      env.downloadOk fid = false ∨ env.chunksFor fid = []) :
    lookupMap (run_etl env disk).finalMap fid = lookupMap disk fid := by
  have hloaded : runLoaded env disk = disk := by simp [runLoaded, hload]
  unfold run_etl
  by_cases hflag : env.serviceOk ∧ env.listOk ∧ env.files ≠ [] ∧
    env.embeddingsOk
  · rw [if_pos hflag]
    simp only [mkRunResult]
    rw [foldl_lookup_preserved env fid env.files _ h, hloaded]
  · rw [if_neg hflag]
    rfl

lemma run_etl_persisted_eq_finalMap (env : RunEnv) (disk : SyncMap)
    (hsave : env.saveOk = true) :
    (run_etl env disk).persisted = (run_etl env disk).finalMap := by
  unfold run_etl
  by_cases hflag : env.serviceOk ∧ env.listOk ∧ env.files ≠ [] ∧
    env.embeddingsOk
  · rw [if_pos hflag]
    simp [mkRunResult, hsave]
  · rw [if_neg hflag]
    rfl

/-- Witness for claim C6: a concrete oracle on which every library call
raises still produces an `Except.ok` result. -/
theorem c6_witness :
    ∃ s, extract_from_file
      { pathExists := true, isFile := true,
        readUtf8 := Except.error PyExc.otherError,
        pdf := { openPdf := Except.error PyExc.otherError },
        docxParas := Except.error PyExc.otherError,
        img := { imreadOk := true, cvOps := Except.error PyExc.otherError,
                 imwrite := Except.error PyExc.otherError,
                 ocrProcessed := Except.error PyExc.otherError,
                 ocrOriginal := Except.error PyExc.otherError,
                 ocrPsm6 := Except.error PyExc.otherError } }
      "report.pdf" = Except.ok s :=
  (c6_extract_never_raises _ "report.pdf").1

/-! ## Claim C1 -/

/-- Claim C1, counterexample.  `save_ingested_map(ingested)` runs
unconditionally at the end of `run_etl` (etl_runner.py lines 127-131), after
the `except` around indexing: in a run with one dirty file whose chunks were
accumulated and whose batch indexing FAILED, the persisted map still gains
the entry `f1 -> t1`, so the SyncState after the run differs from the state
before the run and the file is falsely marked current. -/
theorem c1_persist_despite_index_failure_counterexample :
    (run_etl envC1 []).batch ≠ [] ∧ envC1.indexOk = false ∧
    (run_etl envC1 []).persisted = [("f1", some "t1")] ∧
    ([("f1", some "t1")] : SyncMap) ≠ ([] : SyncMap) := by
  refine ⟨by decide, rfl, by decide, by decide⟩

/-- Claim C1, amended: the persisted SyncState does not depend on the
indexing outcome at all — whenever the final save succeeds, the run persists
the in-memory map with ALL of this run's updates, indexing failure included;
the disk keeps the pre-run state only when the save itself fails. -/
theorem c1_sync_persist_amended (env : RunEnv) (disk : SyncMap) (b : Bool) :
    (run_etl { env with indexOk := b } disk).persisted =
      (run_etl env disk).persisted ∧
    (run_etl env disk).persisted =
      (if env.saveOk = true then (run_etl env disk).finalMap else disk) := by
  constructor
  · have hstep : processFile { env with indexOk := b } = processFile env := by
      funext st f
      rfl
    unfold run_etl
    rw [hstep]
    rw [apply_ite RunResult.persisted, apply_ite RunResult.persisted]
    rfl
  · unfold run_etl
    by_cases hflag : env.serviceOk ∧ env.listOk ∧ env.files ≠ [] ∧
      env.embeddingsOk
    · rw [if_pos hflag]
      rfl
    · rw [if_neg hflag]
      simp only [noRun]
      by_cases hsave : env.saveOk = true
      · rw [if_pos hsave]
      · rw [if_neg hsave]

/-! ## Claim C8 -/

/-- Claim C8, counterexample to the converse direction.  A listing record
whose id is falsy (here the empty string) is skipped with a warning before
the sync comparison (etl_runner.py lines 72-74): its id is absent from the
(empty) loaded map, hence dirty by the claim, yet the run performs no
download and no extraction at all. -/
theorem c8_skip_counterexample :
    lookupMap ([] : SyncMap) "" = none ∧
    (run_etl envC8cex []).events = [] := by
  refine ⟨rfl, by decide⟩

/-- Claim C8, amended: in a listing with pairwise-distinct ids, a file whose
current `modifiedTime` equals the marker stored under its id in the loaded
map triggers no download and no extraction; conversely a file with a
non-falsy id whose stored marker is absent or different is downloaded —
files with a missing or empty id are excluded, since the runner skips them
before the sync comparison. -/
theorem c8_incremental_skip_amended (env : RunEnv) (disk : SyncMap)
    (f : DriveFile) (fid : String) (hmem : f ∈ env.files)
    (hid : f.id = some fid)
    (hnodup : (env.files.filterMap DriveFile.id).Nodup) :
    (lookupMap (runLoaded env disk) fid = some f.modifiedTime →
      EtlEvent.download fid ∉ (run_etl env disk).events ∧
      EtlEvent.extract fid ∉ (run_etl env disk).events) ∧
    (fid ≠ "" → lookupMap (runLoaded env disk) fid ≠ some f.modifiedTime →
      env.serviceOk = true → env.listOk = true → env.embeddingsOk = true →
      EtlEvent.download fid ∈ (run_etl env disk).events) := by
  constructor
  · intro hcur
    exact run_etl_current_no_events env disk f fid hmem hid hnodup hcur
  · intro hne hdirty hs hl hemb
    exact (run_etl_dirty_mem_events env disk f fid hmem hid hne hnodup
      hs hl hemb hdirty).1

/-- Witness for the amended claim C8: a concrete current file is neither
downloaded nor extracted. -/
theorem c8_witness :
    EtlEvent.download "a" ∉ (run_etl envC8w [("a", some "t3")]).events :=
  ((c8_incremental_skip_amended envC8w [("a", some "t3")] fileC8w "a"
      (by decide) (by decide) (by decide)).1 (by decide)).1

/-! ## Claim C9 -/

/-- Claim C9, confirmed: a dirty file that downloads fine but whose
extraction-and-chunking yields zero chunks hits the `continue` at
etl_runner.py line 97 before `ingested[fid] = modified` (line 106), so its
marker is never recorded: it is downloaded and extracted this run, the
persisted map still carries its old entry, and the very next run (same
listing, same content) downloads and extracts it again — and, since the
theorem applies to that run as well, so does every later run. -/
theorem c9_zero_chunks_stays_dirty (env : RunEnv) (disk : SyncMap)
    (f : DriveFile) (fid : String) (hmem : f ∈ env.files)
    (hid : f.id = some fid) (hne : fid ≠ "")
    (hnodup : (env.files.filterMap DriveFile.id).Nodup)
    (hs : env.serviceOk = true) (hl : env.listOk = true)
    (hemb : env.embeddingsOk = true) (hload : env.loadOk = true)
    (hsave : env.saveOk = true) (hdl : env.downloadOk fid = true)
    (hch : env.chunksFor fid = [])
    (hdirty : lookupMap disk fid ≠ some f.modifiedTime) :
    EtlEvent.download fid ∈ (run_etl env disk).events ∧
    EtlEvent.extract fid ∈ (run_etl env disk).events ∧
    lookupMap (run_etl env disk).persisted fid = lookupMap disk fid ∧
    EtlEvent.download fid ∈
      (run_etl env ((run_etl env disk).persisted)).events ∧
    EtlEvent.extract fid ∈
      (run_etl env ((run_etl env disk).persisted)).events := by
  have hloaded : runLoaded env disk = disk := by simp [runLoaded, hload]
  have h1 := run_etl_dirty_mem_events env disk f fid hmem hid hne hnodup
    hs hl hemb (by rw [hloaded]; exact hdirty)
  have hper : lookupMap (run_etl env disk).persisted fid =
      lookupMap disk fid := by
    rw [run_etl_persisted_eq_finalMap env disk hsave]
    exact run_etl_finalMap_lookup env disk fid hload
      (fun g _ => Or.inr (Or.inr (Or.inr hch)))
  have hloaded2 : runLoaded env ((run_etl env disk).persisted) =
      (run_etl env disk).persisted := by simp [runLoaded, hload]
  have h2 := run_etl_dirty_mem_events env ((run_etl env disk).persisted)
    f fid hmem hid hne hnodup hs hl hemb
    (by rw [hloaded2, hper]; exact hdirty)
  exact ⟨h1.1, h1.2 hdl, hper, h2.1, h2.2 hdl⟩

/-- Witness for claim C9: a concrete zero-chunk file is extracted during the
run even though it will never be marked current. -/
theorem c9_witness :
    EtlEvent.extract "z" ∈ (run_etl envC9 []).events :=
  (c9_zero_chunks_stays_dirty envC9 [] fileC9 "z" (by decide) (by decide)
    (by decide) (by decide) rfl rfl rfl rfl rfl rfl rfl (by decide)).2.1

/-! ## Claim C10 -/

lemma chunkDocs_congr :
    ∀ (c1 c2 : List Chunk),
      c1.map (fun c => (c.text, c.metadata)) =
        c2.map (fun c => (c.text, c.metadata)) →
      chunkDocs c1 = chunkDocs c2 := by
  intro c1
  induction c1 with
  | nil =>
    intro c2 h
    cases c2 with
    | nil => rfl
    | cons b t2 => simp at h
  | cons a t ih =>
    intro c2 h
    cases c2 with
    | nil => simp at h
    | cons b t2 =>
      simp only [List.map_cons, List.cons.injEq] at h
      obtain ⟨hhead, htail⟩ := h
      have htext : a.text = b.text := congrArg Prod.fst hhead
      have hmeta : a.metadata = b.metadata := congrArg Prod.snd hhead
      show List.filterMap _ (a :: t) = List.filterMap _ (b :: t2)
      rw [List.filterMap_cons, List.filterMap_cons]
      have htails : chunkDocs t = chunkDocs t2 := ih t2 htail
      unfold chunkDocs at htails
      rw [htext, hmeta, htails]

/-- Claim C10, confirmed.  First part: the documents handed to the vector
store depend only on each chunk's `text` and `metadata` fields — two chunk
batches agreeing on those but differing arbitrarily in their `id` fields
produce identical store input, so the deterministic chunk id is never passed
to the store.  Second part: every document passed carries a chunk's metadata
unchanged, and its content is the chunk's stripped text or one of the pieces
of that text produced by the fixed 800/100 splitter. -/
theorem c10_store_input_ignores_id :
    (∀ (env : VsEnv) (c1 c2 : List Chunk),
      c1.map (fun c => (c.text, c.metadata)) =
        c2.map (fun c => (c.text, c.metadata)) →
      chromaInputDocs env c1 = chromaInputDocs env c2) ∧
    (∀ (env : VsEnv) (chunks : List Chunk) (docs : List VDoc) (d : VDoc),
      chromaInputDocs env chunks = some docs → d ∈ docs →
      ∃ c ∈ chunks, d.metadata = c.metadata ∧
        (d.page_content = pyStrip c.text ∨
         ∃ fsp, env.splitter 800 100 = some fsp ∧
           d.page_content ∈ fsp (pyStrip c.text))) := by
  constructor
  · intro env c1 c2 h
    have hlen : c1.length = c2.length := by
      have hm := congrArg List.length h
      simpa using hm
    unfold chromaInputDocs
    by_cases h1 : c1 = []
    · have h2 : c2 = [] := by
        rw [← List.length_eq_zero, ← hlen, h1]
        rfl
      rw [if_pos h1, if_pos h2]
    · have h2 : ¬ c2 = [] := by
        intro hc
        rw [← List.length_eq_zero, hlen, hc] at h1
        exact h1 rfl
      rw [if_neg h1, if_neg h2, chunkDocs_congr c1 c2 h]
  · intro env chunks docs d hdocs hd
    unfold chromaInputDocs at hdocs
    by_cases h1 : chunks = []
    · rw [if_pos h1] at hdocs
      exact absurd hdocs (by simp)
    · rw [if_neg h1] at hdocs
      by_cases h2 : chunkDocs chunks = []
      · rw [if_pos h2] at hdocs
        exact absurd hdocs (by simp)
      · rw [if_neg h2] at hdocs
        cases hsp : env.splitter 800 100 with
        | none =>
          rw [hsp] at hdocs
          injection hdocs with hdocs
          rw [← hdocs] at hd
          obtain ⟨c, hc, hcd⟩ := List.mem_filterMap.mp hd
          by_cases hstrip : pyStrip c.text = ""
          · rw [if_pos hstrip] at hcd
            exact Option.noConfusion hcd
          · rw [if_neg hstrip] at hcd
            injection hcd with hcd
            refine ⟨c, hc, ?_, Or.inl ?_⟩
            · rw [← hcd]
            · rw [← hcd]
        | some fsp =>
          rw [hsp] at hdocs
          injection hdocs with hdocs
          rw [← hdocs] at hd
          obtain ⟨d0, hd0, hdd⟩ := List.mem_flatMap.mp hd
          obtain ⟨s, hsmem, hds⟩ := List.mem_map.mp hdd
          obtain ⟨c, hc, hcd⟩ := List.mem_filterMap.mp hd0
          by_cases hstrip : pyStrip c.text = ""
          · rw [if_pos hstrip] at hcd
            exact Option.noConfusion hcd
          · rw [if_neg hstrip] at hcd
            injection hcd with hcd
            refine ⟨c, hc, ?_, Or.inr ⟨fsp, rfl, ?_⟩⟩
            · rw [← hds, ← hcd]
            · rw [← hds]
              rw [← hcd] at hsmem
              exact hsmem

/-- Witness for claim C10: two singleton batches differing only in the chunk
id produce the same store input. -/
theorem c10_witness :
    chromaInputDocs vsEnvC10 [vsChunkA] = chromaInputDocs vsEnvC10 [vsChunkB] :=
  c10_store_input_ignores_id.1 vsEnvC10 [vsChunkA] [vsChunkB] (by decide)

end EtlChatbot
